import Mathlib

/-!
Verification of the simpleai repository's structured-response pipeline.

Strings from the Go source are modelled as `List Char` (Go iterates with
`for i, c := range s`, i.e. over runes; slice boundaries taken by the code
always fall on rune boundaries, so positions are modelled as rune indices).
Go's `time.Duration` float arithmetic is modelled over `ℚ` (nanoseconds).
-/

namespace SimpleAI

/-- Characters trimmed by Go's strings.TrimSpace (ASCII space class). -/
def isSpaceGo (c : Char) : Bool :=
  c = ' ' ∨ c = '\t' ∨ c = '\n' ∨ c = Char.ofNat 11 ∨ c = Char.ofNat 12 ∨ c = '\r'

/-- Model of Go strings.TrimSpace: drop leading and trailing whitespace. -/
def trimSpace (s : List Char) : List Char :=
  ((s.dropWhile isSpaceGo).reverse.dropWhile isSpaceGo).reverse

/-- Model of Go strings.HasPrefix. -/
def startsWithL (p s : List Char) : Bool :=
  decide (p <+: s)

/-- Model of Go strings.HasSuffix. -/
def endsWithL (p s : List Char) : Bool :=
  decide (p <:+ s)

/-- Model of Go strings.Index: index of the first occurrence of `sub` in `s`. -/
def indexOfSub (s sub : List Char) : Option Nat :=
  match s with
  | [] => if sub = [] then some 0 else none
  | _ :: rest =>
    if startsWithL sub s then some 0
    else (indexOfSub rest sub).map (· + 1)

/-- Model of Go strings.Contains. -/
def containsSub (s sub : List Char) : Bool :=
  (indexOfSub s sub).isSome

/-! ### JSON syntax validity

`isValidJSON` in the source delegates to Go's `encoding/json.Unmarshal`
(standard library, outside this repository).  The checker below models the
syntax accepted by Go's JSON scanner: optional leading/trailing JSON
whitespace around one JSON value; strings reject raw control characters and
accept the standard escapes (including `\uXXXX` with four hex digits);
numbers follow the JSON grammar (no leading zeros, no leading `+`). -/

def jsonWsChar (c : Char) : Bool :=
  c = ' ' ∨ c = '\t' ∨ c = '\n' ∨ c = '\r'

def skipJsonWs : List Char → List Char
  | [] => []
  | c :: cs => if jsonWsChar c then skipJsonWs cs else c :: cs

def isDigitCh (c : Char) : Bool := '0' ≤ c ∧ c ≤ '9'

def isHexDigit (c : Char) : Bool :=
  ('0' ≤ c ∧ c ≤ '9') ∨ ('a' ≤ c ∧ c ≤ 'f') ∨ ('A' ≤ c ∧ c ≤ 'F')

/-- Parse the remainder of a JSON string literal (after the opening quote),
returning the input remaining after the closing quote. -/
def jsonStringRest : Nat → List Char → Option (List Char)
  | 0, _ => none
  | _ + 1, [] => none
  | fuel + 1, c :: cs =>
    if c = '"' then some cs
    else if c = '\\' then
      match cs with
      | [] => none
      | e :: cs2 =>
        if e = '"' ∨ e = '\\' ∨ e = '/' ∨ e = 'b' ∨ e = 'f' ∨ e = 'n' ∨ e = 'r' ∨ e = 't' then
          jsonStringRest fuel cs2
        else if e = 'u' then
          match cs2 with
          | h1 :: h2 :: h3 :: h4 :: cs3 =>
            if isHexDigit h1 ∧ isHexDigit h2 ∧ isHexDigit h3 ∧ isHexDigit h4 then
              jsonStringRest fuel cs3
            else none
          | _ => none
        else none
    else if c.toNat < 32 then none
    else jsonStringRest fuel cs

/-- Parse the remainder of a JSON number given the input at its integer part
(the optional leading minus sign already consumed). -/
def jsonNumberRest (cs : List Char) : Option (List Char) :=
  match cs with
  | [] => none
  | c :: rest =>
    let intRem :=
      if c = '0' then some rest
      else if isDigitCh c then some (rest.dropWhile isDigitCh)
      else none
    match intRem with
    | none => none
    | some r1 =>
      let fracRem :=
        match r1 with
        | '.' :: r =>
          match r with
          | d :: rr => if isDigitCh d then some (rr.dropWhile isDigitCh) else none
          | [] => none
        | _ => some r1
      match fracRem with
      | none => none
      | some r2 =>
        match r2 with
        | e :: r =>
          if e = 'e' ∨ e = 'E' then
            let r3 := match r with
              | sgn :: rr => if sgn = '+' ∨ sgn = '-' then rr else sgn :: rr
              | [] => []
            match r3 with
            | d :: rr => if isDigitCh d then some (rr.dropWhile isDigitCh) else none
            | [] => none
          else some r2
        | [] => some r2

/-- Parser mode: a single value, object members, or array elements
(`first` records whether a closing delimiter may come immediately). -/
inductive JMode
  | value : JMode
  | members : Bool → JMode
  | elements : Bool → JMode

/-- Fueled recognizer for the JSON grammar accepted by Go's scanner. -/
def jsonRun : Nat → JMode → List Char → Option (List Char)
  | 0, _, _ => none
  | fuel + 1, .value, cs =>
    match cs with
    | [] => none
    | c :: rest =>
      if c = '{' then jsonRun fuel (.members true) rest
      else if c = '[' then jsonRun fuel (.elements true) rest
      else if c = '"' then jsonStringRest (fuel + 1) rest
      else if c = 't' then
        match rest with
        | 'r' :: 'u' :: 'e' :: r => some r
        | _ => none
      else if c = 'f' then
        match rest with
        | 'a' :: 'l' :: 's' :: 'e' :: r => some r
        | _ => none
      else if c = 'n' then
        match rest with
        | 'u' :: 'l' :: 'l' :: r => some r
        | _ => none
      else if c = '-' then jsonNumberRest rest
      else if isDigitCh c then jsonNumberRest (c :: rest)
      else none
  | fuel + 1, .members first, cs =>
    match skipJsonWs cs with
    | [] => none
    | c :: rest =>
      if c = '}' ∧ first then some rest
      else if c = '"' then
        match jsonStringRest (fuel + 1) rest with
        | none => none
        | some r1 =>
          match skipJsonWs r1 with
          | ':' :: r2 =>
            match jsonRun fuel .value (skipJsonWs r2) with
            | none => none
            | some r3 =>
              match skipJsonWs r3 with
              | ',' :: r4 => jsonRun fuel (.members false) r4
              | '}' :: r4 => some r4
              | _ => none
          | _ => none
      else none
  | fuel + 1, .elements first, cs =>
    match skipJsonWs cs with
    | [] => none
    | c :: rest =>
      if c = ']' ∧ first then some rest
      else
        match jsonRun fuel .value (skipJsonWs (c :: rest)) with
        | none => none
        | some r1 =>
          match skipJsonWs r1 with
          | ',' :: r2 => jsonRun fuel (.elements false) r2
          | ']' :: r2 => some r2
          | _ => none

/-- Model of the source's isValidJSON: Go json.Unmarshal succeeds on the text
exactly when it is one JSON value surrounded only by whitespace. -/
def isValidJSON (s : List Char) : Bool :=
  match jsonRun (4 * s.length + 16) .value (skipJsonWs s) with
  | some rest => skipJsonWs rest = []
  | none => false

/-! ### Escape-aware scanner and repair pass

`fixUnescapedNewlines` (identical in the ollama client and the google
provider) walks the text with an (inString, escaped) state and rewrites
literal newline, carriage-return and tab characters found inside a quoted
string into their two-character escape sequences. -/

/-- One step of the repair pass: given the current character and the
(inString, escaped) state, produce the next state and the emitted output
characters, exactly as in the source's switch plus its trailing
`if escaped && char != '\\' { escaped = false }`. -/
def fixStep (c : Char) (inString escaped : Bool) : (Bool × Bool) × List Char :=
  if c = '\\' ∧ ¬escaped then ((inString, true), [c])
  else
    let out :=
      if c = '"' ∧ ¬escaped then ((!inString, escaped), [c])
      else if c = '\n' ∧ inString ∧ ¬escaped then ((inString, escaped), ['\\', 'n'])
      else if c = '\r' ∧ inString ∧ ¬escaped then ((inString, escaped), ['\\', 'r'])
      else if c = '\t' ∧ inString ∧ ¬escaped then ((inString, escaped), ['\\', 't'])
      else ((inString, escaped), [c])
    (((out.1).1, if (out.1).2 ∧ c ≠ '\\' then false else (out.1).2), out.2)

/-- The repair pass's loop over the input, from a given scanner state. -/
def fixGo (inString escaped : Bool) : List Char → List Char
  | [] => []
  | c :: cs =>
    (fixStep c inString escaped).2 ++
      fixGo (fixStep c inString escaped).1.1 (fixStep c inString escaped).1.2 cs

/-- Model of fixUnescapedNewlines. -/
def fixUnescapedNewlines (s : List Char) : List Char :=
  fixGo false false s

/-- Model of repairCommonJSONIssues (which only applies the newline fix). -/
def repairCommonJSONIssues (s : List Char) : List Char :=
  fixUnescapedNewlines s

/-- The (inString, escaped) state of the repair pass's scanner after
consuming the given characters. -/
def fixState (inString escaped : Bool) : List Char → Bool × Bool
  | [] => (inString, escaped)
  | c :: cs => fixState (fixStep c inString escaped).1.1 (fixStep c inString escaped).1.2 cs

/-- One step of the balanced-span extractor's scanner (the string-escape
handling at the top of extractJSONBoundaries' loop): an unescaped backslash
sets `escaped` and skips the rest of the iteration; otherwise an unescaped
quote toggles `inString` and `escaped` is cleared. -/
def ejbStep (c : Char) (inString escaped : Bool) : Bool × Bool :=
  if c = '\\' ∧ ¬escaped then (inString, true)
  else ((if c = '"' ∧ ¬escaped then !inString else inString), false)

/-- The (inString, escaped) state of the balanced-span extractor's scanner
after consuming the given characters. -/
def ejbState (inString escaped : Bool) : List Char → Bool × Bool
  | [] => (inString, escaped)
  | c :: cs => ejbState (ejbStep c inString escaped).1 (ejbStep c inString escaped).2 cs

/-- Scanner following the specification's words: a backslash that is not
itself escaped sets "escaped" for exactly the next character and no
character after it; an unescaped double quote toggles the in-string state;
every other character leaves the state unchanged (apart from the escape
expiring). -/
def specScanStep (c : Char) (inString escaped : Bool) : Bool × Bool :=
  if escaped then (inString, false)
  else if c = '\\' then (inString, true)
  else if c = '"' then (!inString, false)
  else (inString, false)

/-- State of the specification's scanner after consuming the given characters. -/
def specScanState (inString escaped : Bool) : List Char → Bool × Bool
  | [] => (inString, escaped)
  | c :: cs => specScanState (specScanStep c inString escaped).1 (specScanStep c inString escaped).2 cs

/-! ### Extraction strategies -/

/-- Loop of extractJSONBoundaries.  `orig` is the whole response (candidates
are sliced from it by position), `cs` the remaining input, `i` the position
of its head, `start` the position of the first unmatched opening delimiter
(Go's `start`, with `none` for -1) and `count` the signed depth counter. -/
def ejbGo (valid : List Char → Bool) (openC closeC : Char) (orig : List Char) :
    List Char → Nat → Option Nat → Int → Bool → Bool → List Char
  | [], _, _, _, _, _ => []
  | c :: cs, i, start, count, inString, escaped =>
    if c = '\\' ∧ ¬escaped then
      ejbGo valid openC closeC orig cs (i + 1) start count inString true
    else
      let inString2 := if c = '"' ∧ ¬escaped then !inString else inString
      if ¬inString2 then
        if c = openC then
          let start2 := match start with
            | none => some i
            | some s0 => some s0
          ejbGo valid openC closeC orig cs (i + 1) start2 (count + 1) inString2 false
        else if c = closeC then
          let count2 := count - 1
          match start with
          | some s0 =>
            if count2 = 0 then
              let candidate := (orig.drop s0).take (i + 1 - s0)
              if valid candidate then candidate
              else ejbGo valid openC closeC orig cs (i + 1) none 0 inString2 false
            else ejbGo valid openC closeC orig cs (i + 1) (some s0) count2 inString2 false
          | none => ejbGo valid openC closeC orig cs (i + 1) none count2 inString2 false
        else ejbGo valid openC closeC orig cs (i + 1) start count inString2 false
      else ejbGo valid openC closeC orig cs (i + 1) start count inString2 false

/-- Model of extractJSONBoundaries. -/
def extractJSONBoundaries (response : List Char) (openC closeC : Char) : List Char :=
  ejbGo isValidJSON openC closeC response response 0 none 0 false false

/-- Model of extractWithBraceCounting: the source instantiates the boundary
scan with braces only. -/
def extractWithBraceCounting (response : List Char) : List Char :=
  extractJSONBoundaries response '{' '}'

/-- The backquote character (avoiding the literal in code). -/
def backquote : Char := Char.ofNat 96

/-- The apostrophe character. -/
def apos : Char := Char.ofNat 39

/-- The fence marker of a markdown code block. -/
def fenceMarker : List Char := [backquote, backquote, backquote]

/-- The language-tagged fence marker. -/
def fenceJsonMarker : List Char := fenceMarker ++ ['j', 's', 'o', 'n']

/-- Model of extractFromMarkdown. -/
def extractFromMarkdown (response marker : List Char) : List Char :=
  match indexOfSub response marker with
  | none => []
  | some start =>
    let content := response.drop (start + marker.length)
    match indexOfSub content fenceMarker with
    | none => []
    | some e =>
      let candidate := trimSpace (content.take e)
      if isValidJSON candidate then candidate else []

/-- The noise phrase before the JSON payload. -/
def hereIsTheJSON : List Char :=
  ['H', 'e', 'r', 'e', apos, 's', ' ', 't', 'h', 'e', ' ', 'J', 'S', 'O', 'N', ':']

/-- The prefixes stripped by extractWithAggressiveCleanup, in source order. -/
def noisePrefixes : List (List Char) :=
  [fenceJsonMarker, fenceMarker, hereIsTheJSON, ['J', 'S', 'O', 'N', ':'], ['{'], ['[']]

/-- The suffixes considered by extractWithAggressiveCleanup, in source order. -/
def noiseSuffixes : List (List Char) :=
  [fenceMarker, ['}'], [']']]

/-- The prefix-removal loop: remove (and trim after) the first matching noise
prefix only. -/
def removeNoisePre : List (List Char) → List Char → List Char
  | [], s => s
  | p :: ps, s =>
    if startsWithL p s then trimSpace (s.drop p.length)
    else removeNoisePre ps s

/-- The suffix-removal loop: the source skips the single-character suffixes
("}" and "]") inside the loop body, so only the fence can be removed. -/
def removeNoiseSuf : List (List Char) → List Char → List Char
  | [], s => s
  | p :: ps, s =>
    if endsWithL p s ∧ p ≠ ['}'] ∧ p ≠ [']'] then trimSpace (s.take (s.length - p.length))
    else removeNoiseSuf ps s

/-- Model of extractWithAggressiveCleanup. -/
def extractWithAggressiveCleanup (response : List Char) : List Char :=
  let cleaned := removeNoiseSuf noiseSuffixes (removeNoisePre noisePrefixes response)
  if isValidJSON cleaned then cleaned
  else extractJSONBoundaries cleaned '{' '}'

/-- Model of extractJSON: the six strategies in source order. -/
def extractJSON (response : List Char) : List Char :=
  let cleaned := trimSpace response
  if isValidJSON cleaned then cleaned
  else
    let repaired := repairCommonJSONIssues cleaned
    if isValidJSON repaired then repaired
    else
      let s3 := if containsSub response fenceJsonMarker then
        extractFromMarkdown response fenceJsonMarker else []
      if s3 ≠ [] then s3
      else
        let s4 := if containsSub response fenceMarker then
          extractFromMarkdown response fenceMarker else []
        if s4 ≠ [] then s4
        else
          let s5 := extractWithBraceCounting response
          if s5 ≠ [] then s5
          else
            let s6 := extractWithAggressiveCleanup response
            if s6 ≠ [] then s6
            else []

/-! ### Balanced brace spans

`braceStep` mirrors the state update of extractJSONBoundaries' loop
(specialised to braces) together with the depth counter, and `BalancedSpan`
says a text is one balanced brace span: it opens with `{`, its depth stays
positive strictly inside, and returns to zero exactly at its final
character. -/

def braceStep (c : Char) : Bool × Bool × Int → Bool × Bool × Int
  | (inString, escaped, count) =>
    if c = '\\' ∧ ¬escaped then (inString, true, count)
    else
      let inString2 := if c = '"' ∧ ¬escaped then !inString else inString
      let count2 :=
        if ¬inString2 then
          if c = '{' then count + 1 else if c = '}' then count - 1 else count
        else count
      (inString2, false, count2)

/-- The depth counter after each character of the text, scanned from the
given state. -/
def braceCounts : Bool × Bool × Int → List Char → List Int
  | _, [] => []
  | st, c :: cs =>
    let st2 := braceStep c st
    st2.2.2 :: braceCounts st2 cs

/-- The text is a single balanced brace span for the extractor's scanner. -/
def BalancedSpan (j : List Char) : Prop :=
  j.head? = some '{' ∧
  (braceCounts (false, false, 0) j).getLast? = some 0 ∧
  ∀ k ∈ (braceCounts (false, false, 0) j).dropLast, 0 < k

instance (j : List Char) : Decidable (BalancedSpan j) := by
  unfold BalancedSpan; infer_instance

/-! ### Retry policy and backoff -/

/-- Model of RetryConfig; delays are rational numbers of nanoseconds
(`time.Duration` float arithmetic idealised over ℚ). -/
structure RetryConfig where
  maxRetries : Nat
  baseDelay : ℚ
  maxDelay : ℚ
  backoffFactor : ℚ
deriving DecidableEq

/-- Model of DefaultRetryConfig: 3 retries, 2s base, 30s cap, factor 2.0. -/
def defaultRetryConfig : RetryConfig :=
  ⟨3, 2 * 10 ^ 9, 30 * 10 ^ 9, 2⟩

/-- Model of the providers' pow helper (iterated multiplication). -/
def powGo (base : ℚ) : Nat → ℚ
  | 0 => 1
  | n + 1 => powGo base n * base

/-- The delay slept before the given attempt, as computed at the top of
ChatWithRetry: no sleep for attempt 0; otherwise base·factor^(n-1) capped
at the maximum delay. -/
def delayBefore (cfg : RetryConfig) (attempt : Nat) : ℚ :=
  if attempt > 0 then
    let d := cfg.baseDelay * powGo cfg.backoffFactor (attempt - 1)
    if d > cfg.maxDelay then cfg.maxDelay else d
  else 0

/-! ### Error taxonomy and classification -/

inductive ErrType
  | connectionFailed
  | timeout
  | invalidResponse
  | jsonParseFailed
  | modelNotAvailable
  | rateLimitExceeded
  | invalidConfig
  | operationFailed
deriving DecidableEq

/-- Model of LLMError (the timestamp field is dropped; the wrapped cause is
kept as its textual description). -/
structure LLMError where
  type : ErrType
  message : List Char
  retryable : Bool
  operation : List Char
  retryCount : Nat
  cause : Option (List Char)
deriving DecidableEq

/-- Model of NewLLMError. -/
def NewLLMError (t : ErrType) (message operation : List Char) (retryable : Bool)
    (retryCount : Nat) (cause : Option (List Char)) : LLMError :=
  ⟨t, message, retryable, operation, retryCount, cause⟩

def opChat : List Char := ("chat").data

/-- Model of the ollama client's classifyError: connection and timeout
substrings are retryable, unknown-model substrings are not, everything else
defaults to a retryable operation failure.  There is no authentication
check in this classifier. -/
def ollamaClassifyError (err : List Char) (attempt : Nat) (operation : List Char) : LLMError :=
  if containsSub err ("connection refused").data ∨ containsSub err ("no such host").data ∨
      containsSub err ("network is unreachable").data then
    NewLLMError .connectionFailed ("connection to Ollama service failed").data operation true attempt (some err)
  else if containsSub err ("timeout").data ∨ containsSub err ("context deadline exceeded").data then
    NewLLMError .timeout ("request timed out").data operation true attempt (some err)
  else if containsSub err ("model not found").data ∨ containsSub err ("model is not available").data then
    NewLLMError .modelNotAvailable ("requested model not available").data operation false attempt (some err)
  else
    NewLLMError .operationFailed ("operation failed").data operation true attempt (some err)

/-- Model of the google provider's classifyError: as the ollama one, plus a
non-retryable authentication bucket, a retryable rate-limit bucket and an
extra timeout/model pattern each. -/
def googleClassifyError (err : List Char) (attempt : Nat) (operation : List Char) : LLMError :=
  if containsSub err ("connection refused").data ∨ containsSub err ("no such host").data ∨
      containsSub err ("network is unreachable").data then
    NewLLMError .connectionFailed ("connection to Google API failed").data operation true attempt (some err)
  else if containsSub err ("timeout").data ∨ containsSub err ("context deadline exceeded").data ∨
      containsSub err ("deadline exceeded").data then
    NewLLMError .timeout ("request timed out").data operation true attempt (some err)
  else if containsSub err ("authentication").data ∨ containsSub err ("unauthorized").data ∨
      containsSub err ("API key").data ∨ containsSub err ("invalid api key").data then
    NewLLMError .invalidConfig ("authentication failed").data operation false attempt (some err)
  else if containsSub err ("rate limit").data ∨ containsSub err ("quota exceeded").data ∨
      containsSub err ("resource exhausted").data then
    NewLLMError .rateLimitExceeded ("rate limit exceeded").data operation true attempt (some err)
  else if containsSub err ("model not found").data ∨ containsSub err ("invalid model").data ∨
      containsSub err ("model is not available").data then
    NewLLMError .modelNotAvailable ("requested model not available").data operation false attempt (some err)
  else
    NewLLMError .operationFailed ("operation failed").data operation true attempt (some err)

/-- Model of IsRetryable on a classified error. -/
def IsRetryable (e : LLMError) : Bool := e.retryable

/-! ### Retry-driven chat orchestrators

The network round-trip is a collaborator: it is modelled as a function from
the attempt index to its outcome (an error's textual description, or the
accumulated response text).  `decodeOk` models whether json.Unmarshal into
the caller's target shape succeeds on the extracted candidate; the decoded
value itself is opaque and represented by the candidate text. -/

inductive NetOutcome
  | failure (msg : List Char)
  | success (text : List Char)

inductive ChatResult
  | ok (message : List Char) (data : Option (List Char))
  | fail (e : LLMError)
deriving DecidableEq

/-- Loop of the ollama client's ChatWithRetry from a given attempt; the fuel
argument makes the recursion structural and equals the number of attempts
still allowed (the zero case is unreachable from the entry point).  Returns
the terminal result together with the index of the last attempt executed. -/
def ollamaGo (net : Nat → NetOutcome) (hasTarget : Bool) (decodeOk : List Char → Bool)
    (maxRetries : Nat) : Nat → Nat → ChatResult × Nat
  | attempt, 0 =>
    (.fail (NewLLMError .operationFailed [] opChat false attempt none), attempt)
  | attempt, fuel + 1 =>
    match net attempt with
    | .failure msg =>
      let e := ollamaClassifyError msg attempt opChat
      if attempt < maxRetries ∧ IsRetryable e then
        ollamaGo net hasTarget decodeOk maxRetries (attempt + 1) fuel
      else (.fail e, attempt)
    | .success text =>
      if hasTarget then
        let j := extractJSON text
        if j = [] then
          let e := NewLLMError .jsonParseFailed ("no valid JSON found in response").data
            opChat true attempt (some text)
          if attempt < maxRetries then ollamaGo net hasTarget decodeOk maxRetries (attempt + 1) fuel
          else (.fail e, attempt)
        else if ¬decodeOk j then
          let e := NewLLMError .jsonParseFailed ("failed to parse JSON response").data
            opChat true attempt (some j)
          if attempt < maxRetries then ollamaGo net hasTarget decodeOk maxRetries (attempt + 1) fuel
          else (.fail e, attempt)
        else (.ok text (some j), attempt)
      else (.ok text none, attempt)

/-- Model of the ollama client's ChatWithRetry. -/
def ollamaChatWithRetry (net : Nat → NetOutcome) (hasTarget : Bool)
    (decodeOk : List Char → Bool) (cfg : RetryConfig) : ChatResult × Nat :=
  ollamaGo net hasTarget decodeOk cfg.maxRetries 0 (cfg.maxRetries + 1)

/-- Loop of the google provider's ChatWithRetry: identical to the ollama one
except that an empty successful response is turned into a retryable
invalid-response failure before any structured handling, and the google
classifier is used. -/
def googleGo (net : Nat → NetOutcome) (hasTarget : Bool) (decodeOk : List Char → Bool)
    (maxRetries : Nat) : Nat → Nat → ChatResult × Nat
  | attempt, 0 =>
    (.fail (NewLLMError .operationFailed [] opChat false attempt none), attempt)
  | attempt, fuel + 1 =>
    match net attempt with
    | .failure msg =>
      let e := googleClassifyError msg attempt opChat
      if attempt < maxRetries ∧ IsRetryable e then
        googleGo net hasTarget decodeOk maxRetries (attempt + 1) fuel
      else (.fail e, attempt)
    | .success text =>
      if text = [] then
        let e := NewLLMError .invalidResponse ("empty response from Google API").data
          opChat true attempt none
        if attempt < maxRetries then googleGo net hasTarget decodeOk maxRetries (attempt + 1) fuel
        else (.fail e, attempt)
      else if hasTarget then
        let j := extractJSON text
        if j = [] then
          let e := NewLLMError .jsonParseFailed ("no valid JSON found in response").data
            opChat true attempt (some text)
          if attempt < maxRetries then googleGo net hasTarget decodeOk maxRetries (attempt + 1) fuel
          else (.fail e, attempt)
        else if ¬decodeOk j then
          let e := NewLLMError .jsonParseFailed ("failed to parse JSON response").data
            opChat true attempt (some j)
          if attempt < maxRetries then googleGo net hasTarget decodeOk maxRetries (attempt + 1) fuel
          else (.fail e, attempt)
        else (.ok text (some j), attempt)
      else (.ok text none, attempt)

/-- Model of the google provider's ChatWithRetry. -/
def googleChatWithRetry (net : Nat → NetOutcome) (hasTarget : Bool)
    (decodeOk : List Char → Bool) (cfg : RetryConfig) : ChatResult × Nat :=
  googleGo net hasTarget decodeOk cfg.maxRetries 0 (cfg.maxRetries + 1)

/-! ### Factory and provider cache -/

structure GoModel where
  name : List Char
deriving DecidableEq

structure Provider where
  pid : Nat
deriving DecidableEq

inductive ConfigValue
  | str (v : List Char)
  | int (v : Int)
deriving DecidableEq

/-- Model of a Go map[string]interface{} configuration map. -/
def ConfigMap := List (List Char × ConfigValue)

structure ProviderConfig where
  host : List Char
  apiKey : List Char
  defaultModel : List Char
  timeout : Int
  retryAttempts : Int
  rateLimit : Int
  extraSettings : List (List Char × List Char)
deriving DecidableEq

structure FactoryConfig where
  defaultProvider : List Char
  providers : List (List Char × ProviderConfig)
  modelPreferences : List (List Char × List Char)
  fallbackProviders : List (List Char)

/-- Association-list lookup, modelling Go map reads. -/
def lookupA {α : Type} (k : List Char) : List (List Char × α) → Option α
  | [] => none
  | (k2, v) :: rest => if k2 = k then some v else lookupA k rest

/-- Model of the LLMFactory state (the mutex is dropped: operations are
modelled sequentially). -/
structure LLMFactory where
  registry : List (List Char × (ConfigMap → Except LLMError Provider))
  config : FactoryConfig
  providerCache : List (List Char × Provider)
  modelCache : List (List Char × List GoModel)

/-- Model of ProviderRegistry.Create. -/
def registryCreate (reg : List (List Char × (ConfigMap → Except LLMError Provider)))
    (name : List Char) (cfg : ConfigMap) : Except LLMError Provider :=
  match lookupA name reg with
  | none => .error (NewLLMError .invalidConfig (("provider not found: ").data ++ name)
      ("provider_creation").data false 0 none)
  | some ctor => ctor cfg

/-- Model of createProviderUnsafe: answer from the provider cache when
possible, otherwise run the registered constructor and cache the result.
(Go wraps a constructor error with context; the wrapping is not modelled.) -/
def createProviderUnsafe (f : LLMFactory) (name : List Char) (cfg : ConfigMap) :
    Except LLMError Provider × LLMFactory :=
  match lookupA name f.providerCache with
  | some p => (.ok p, f)
  | none =>
    match registryCreate f.registry name cfg with
    | .error e => (.error e, f)
    | .ok p => (.ok p, { f with providerCache := (name, p) :: f.providerCache })

/-- Model of CreateProvider (which just locks and calls
createProviderUnsafe). -/
def CreateProvider (f : LLMFactory) (name : List Char) (cfg : ConfigMap) :
    Except LLMError Provider × LLMFactory :=
  createProviderUnsafe f name cfg

/-- Model of LoadConfig: validate, then replace the configuration and clear
both caches. -/
def LoadConfig (f : LLMFactory) (config : FactoryConfig) :
    Except LLMError Unit × LLMFactory :=
  if config.defaultProvider = [] then
    (.error (NewLLMError .invalidConfig ("default provider must be specified").data
      ("load_config").data false 0 none), f)
  else if config.providers = [] then
    (.error (NewLLMError .invalidConfig ("at least one provider must be configured").data
      ("load_config").data false 0 none), f)
  else
    match lookupA config.defaultProvider config.providers with
    | none =>
      (.error (NewLLMError .invalidConfig (("default provider ").data ++
        config.defaultProvider ++ (" not found in provider configurations").data)
        ("load_config").data false 0 none), f)
    | some _ => (.ok (), { f with config := config, providerCache := [], modelCache := [] })

/-- No two consecutive backslashes occur in the text. -/
def noConsecBackslash : List Char → Bool
  | [] => true
  | [_] => true
  | a :: b :: rest => (!(a = '\\' && b = '\\')) && noConsecBackslash (b :: rest)

/-! ### Theorems -/

theorem noConsecBackslash_cons {a : Char} {s : List Char}
    (h : noConsecBackslash (a :: s) = true) : noConsecBackslash s = true := by
  cases s with
  | nil => rfl
  | cons b rest => exact ((Bool.and_eq_true _ _).mp h).2

theorem noConsecBackslash_take {s : List Char} (h : noConsecBackslash s = true) :
    ∀ n, noConsecBackslash (s.take n) = true := by
  induction s with
  | nil => intro n; cases n <;> rfl
  | cons a rest ih =>
    intro n
    cases n with
    | zero => rfl
    | succ m =>
      cases rest with
      | nil => cases m <;> rfl
      | cons b rest2 =>
        have h2 := (Bool.and_eq_true _ _).mp h
        cases m with
        | zero => rfl
        | succ k =>
          show noConsecBackslash (a :: b :: List.take k rest2) = true
          rw [noConsecBackslash]
          refine (Bool.and_eq_true _ _).mpr ⟨h2.1, ?_⟩
          have h3 := ih h2.2 (k + 1)
          simpa using h3

theorem fixStep_state_eq_ejbStep (c : Char) (inS esc : Bool)
    (h : ¬(c = '\\' ∧ esc = true)) :
    (fixStep c inS esc).1 = ejbStep c inS esc := by
  unfold fixStep ejbStep
  by_cases h1 : c = '\\'
  · have hesc : esc = false := by
      cases esc with
      | false => rfl
      | true => exact absurd ⟨h1, rfl⟩ h
    subst h1 hesc
    simp
  · by_cases h2 : c = '"' <;> by_cases h3 : esc <;>
      by_cases h4 : c = '\n' ∧ inS = true <;> by_cases h5 : c = '\r' ∧ inS = true <;>
      by_cases h6 : c = '\t' ∧ inS = true <;>
      simp [h1, h2, h3, h4, h5, h6]

theorem ejbStep_esc_imp {c : Char} {inS esc : Bool}
    (h : (ejbStep c inS esc).2 = true) : c = '\\' := by
  by_cases h1 : c = '\\'
  · exact h1
  · exfalso
    unfold ejbStep at h
    simp [h1] at h

theorem fixState_eq_ejbState_aux :
    ∀ (s : List Char) (inS esc : Bool), noConsecBackslash s = true →
      (esc = true → s.head? ≠ some '\\') →
      fixState inS esc s = ejbState inS esc s := by
  intro s
  induction s with
  | nil => intro inS esc _ _; rfl
  | cons c cs ih =>
    intro inS esc hnd hesc
    have hne : ¬(c = '\\' ∧ esc = true) := by
      rintro ⟨h1, h2⟩
      exact hesc h2 (by simp [h1])
    have hstep := fixStep_state_eq_ejbStep c inS esc hne
    show fixState (fixStep c inS esc).1.1 (fixStep c inS esc).1.2 cs =
      ejbState (ejbStep c inS esc).1 (ejbStep c inS esc).2 cs
    rw [hstep]
    apply ih _ _ (noConsecBackslash_cons hnd)
    intro h2
    have hc : c = '\\' := ejbStep_esc_imp h2
    subst hc
    cases cs with
    | nil => simp
    | cons d rest =>
      have h3 := ((Bool.and_eq_true _ _).mp hnd).1
      simp only [List.head?_cons, ne_eq, Option.some.injEq]
      intro hd
      rw [hd] at h3
      simp at h3

/-- C3 counterexample: on the two-character input of two consecutive
backslashes, the repair pass's scanner keeps the escaped flag set while the
balanced-span extractor's scanner clears it — the two scanner copies are not
behaviorally equivalent. -/
theorem c3_counterexample :
    fixState false false ['\\', '\\'] ≠ ejbState false false ['\\', '\\'] := by decide

/-- C3 amended: on every input without two consecutive backslashes, the
(inside-quoted-string, escaped) state computed by the repair pass's scanner
equals, at every position, the state computed by the balanced-span
extractor's scanner. -/
theorem c3_amended (s : List Char) (h : noConsecBackslash s = true) (n : Nat) :
    fixState false false (s.take n) = ejbState false false (s.take n) :=
  fixState_eq_ejbState_aux (s.take n) false false (noConsecBackslash_take h n)
    (by intro hf; exact absurd hf (by simp))

/-- C3 witness: a concrete run of the amended equivalence. -/
theorem c3_amended_witness :
    noConsecBackslash ['"', 'a', '\\', 'n', '"'] = true ∧
    fixState false false (['"', 'a', '\\', 'n', '"'].take 5) =
      ejbState false false (['"', 'a', '\\', 'n', '"'].take 5) :=
  ⟨by decide, c3_amended ['"', 'a', '\\', 'n', '"'] (by decide) 5⟩

/-- C8 counterexample: in the repair pass's scanner an escaped backslash
keeps the escape alive, so after backslash-backslash-quote the quote is
treated as escaped and does not toggle the in-string state, against the
stated rule that an unescaped backslash escapes exactly the next character. -/
theorem c8_counterexample :
    fixState false false ['\\', '\\', '"'] ≠ specScanState false false ['\\', '\\', '"'] := by
  decide

/-- C8 amended: the stated scanner rules hold for the balanced-span
extractor's scanner: each step (and hence the whole scan) agrees with the
scanner defined literally from the rules (a backslash not itself escaped
escapes exactly the next character and nothing after it, an unescaped quote
toggles in-string, everything else is inert).  The repair pass's copy
deviates on escaped backslashes (see the counterexample). -/
theorem c8_amended :
    (∀ (c : Char) (inS esc : Bool), ejbStep c inS esc = specScanStep c inS esc) ∧
    (∀ (s : List Char) (inS esc : Bool), ejbState inS esc s = specScanState inS esc s) := by
  have hstep : ∀ (c : Char) (inS esc : Bool), ejbStep c inS esc = specScanStep c inS esc := by
    intro c inS esc
    unfold ejbStep specScanStep
    by_cases h1 : esc <;> by_cases h2 : c = '\\' <;> by_cases h3 : c = '"' <;>
      simp [h1, h2, h3]
  refine ⟨hstep, ?_⟩
  intro s
  induction s with
  | nil => intro inS esc; rfl
  | cons c cs ih =>
    intro inS esc
    show ejbState (ejbStep c inS esc).1 (ejbStep c inS esc).2 cs =
      specScanState (specScanStep c inS esc).1 (specScanStep c inS esc).2 cs
    rw [hstep]
    exact ih _ _

theorem fixGo_cons (inS esc : Bool) (c : Char) (cs : List Char) :
    fixGo inS esc (c :: cs) =
      (fixStep c inS esc).2 ++ fixGo (fixStep c inS esc).1.1 (fixStep c inS esc).1.2 cs := rfl

theorem fixStep_cases (c : Char) (inS esc : Bool) :
    (fixStep c inS esc).2 = [c] ∨
    (inS = true ∧ esc = false ∧ (fixStep c inS esc).1 = (true, false) ∧
      ((c = '\n' ∧ (fixStep c inS esc).2 = ['\\', 'n']) ∨
       (c = '\r' ∧ (fixStep c inS esc).2 = ['\\', 'r']) ∨
       (c = '\t' ∧ (fixStep c inS esc).2 = ['\\', 't']))) := by
  by_cases h3 : c = '\n' ∧ inS = true ∧ esc = false
  · obtain ⟨hc, hi, he⟩ := h3
    subst hc hi he
    exact Or.inr ⟨rfl, rfl, by decide, Or.inl ⟨rfl, by decide⟩⟩
  · by_cases h4 : c = '\r' ∧ inS = true ∧ esc = false
    · obtain ⟨hc, hi, he⟩ := h4
      subst hc hi he
      exact Or.inr ⟨rfl, rfl, by decide, Or.inr (Or.inl ⟨rfl, by decide⟩)⟩
    · by_cases h5 : c = '\t' ∧ inS = true ∧ esc = false
      · obtain ⟨hc, hi, he⟩ := h5
        subst hc hi he
        exact Or.inr ⟨rfl, rfl, by decide, Or.inr (Or.inr ⟨rfl, by decide⟩)⟩
      · left
        unfold fixStep
        by_cases h1 : c = '\\' ∧ esc = false
        · simp [h1]
        · by_cases h2 : c = '"' ∧ esc = false
          · simp [h1, h2]
          · simp [h1, h2, h3, h4, h5]

theorem fixGo_idem : ∀ (s : List Char) (inS esc : Bool),
    fixGo inS esc (fixGo inS esc s) = fixGo inS esc s := by
  intro s
  induction s with
  | nil => intro inS esc; rfl
  | cons c cs ih =>
    intro inS esc
    rcases fixStep_cases c inS esc with hpass | ⟨hi, he, hst, hrep⟩
    · rw [fixGo_cons inS esc c cs, hpass]
      simp only [List.singleton_append]
      rw [fixGo_cons, hpass, ih]
      simp
    · subst hi he
      have e1 : fixStep '\\' true false = ((true, true), ['\\']) := by decide
      have e2n : fixStep 'n' true true = ((true, false), ['n']) := by decide
      have e2r : fixStep 'r' true true = ((true, false), ['r']) := by decide
      have e2t : fixStep 't' true true = ((true, false), ['t']) := by decide
      rcases hrep with ⟨hc, hout⟩ | ⟨hc, hout⟩ | ⟨hc, hout⟩ <;>
      · subst hc
        rw [fixGo_cons true false _ cs, hout]
        simp only [hst, List.cons_append, List.nil_append]
        rw [fixGo_cons, e1]
        simp only [List.singleton_append, List.cons_append, List.nil_append]
        rw [fixGo_cons]
        first
        | rw [e2n] | rw [e2r] | rw [e2t]
        simp only [List.singleton_append, List.cons_append, List.nil_append]
        rw [ih]

/-- C4: the repair pass is idempotent — running repair on repaired text is a
no-op, for every input (escape sequences emitted by a first pass are
recognised as escapes by a second pass and are not re-escaped). -/
theorem c4_repair_idempotent (s : List Char) :
    repairCommonJSONIssues (repairCommonJSONIssues s) = repairCommonJSONIssues s :=
  fixGo_idem s false false

theorem powGo_eq_pow (b : ℚ) : ∀ n, powGo b n = b ^ n := by
  intro n
  induction n with
  | zero => rfl
  | succ m ih => rw [powGo, ih, pow_succ]

/-- C9: the delay slept before attempt n (n ≥ 1) is
min(base · multiplier^(n-1), max), attempt 0 runs with no preceding delay,
and for the default policy (3 retries, 2s base, 30s cap, factor 2) the
delays before attempts 1, 2, 3 are 2s, 4s, 8s. -/
theorem c9_backoff (cfg : RetryConfig) (n : Nat) (hn : 1 ≤ n)
    (hf : 1 < cfg.backoffFactor) :
    delayBefore cfg n = min (cfg.baseDelay * cfg.backoffFactor ^ (n - 1)) cfg.maxDelay ∧
    delayBefore cfg 0 = 0 ∧
    delayBefore defaultRetryConfig 1 = 2 * 10 ^ 9 ∧
    delayBefore defaultRetryConfig 2 = 4 * 10 ^ 9 ∧
    delayBefore defaultRetryConfig 3 = 8 * 10 ^ 9 := by
  refine ⟨?_, rfl, by norm_num [delayBefore, defaultRetryConfig, powGo],
    by norm_num [delayBefore, defaultRetryConfig, powGo],
    by norm_num [delayBefore, defaultRetryConfig, powGo]⟩
  unfold delayBefore
  rw [if_pos (by omega : n > 0), powGo_eq_pow]
  rcases le_or_lt (cfg.baseDelay * cfg.backoffFactor ^ (n - 1)) cfg.maxDelay with h | h
  · rw [if_neg (by exact not_lt.mpr h), min_eq_left h]
  · rw [if_pos h, min_eq_right h.le]

/-- C9 witness: the backoff law applied to the default policy at attempt 1. -/
theorem c9_backoff_witness :
    1 ≤ 1 ∧ 1 < defaultRetryConfig.backoffFactor ∧
    (delayBefore defaultRetryConfig 1 =
        min (defaultRetryConfig.baseDelay * defaultRetryConfig.backoffFactor ^ (1 - 1))
          defaultRetryConfig.maxDelay ∧
      delayBefore defaultRetryConfig 0 = 0 ∧
      delayBefore defaultRetryConfig 1 = 2 * 10 ^ 9 ∧
      delayBefore defaultRetryConfig 2 = 4 * 10 ^ 9 ∧
      delayBefore defaultRetryConfig 3 = 8 * 10 ^ 9) :=
  ⟨le_refl 1, by decide, c9_backoff defaultRetryConfig 1 (le_refl 1) (by decide)⟩

/-- C10: a provider name already held in the provider cache is answered from
the cache for every configuration map — the state is unchanged, the result
does not depend on the registered constructor, and only a successful
LoadConfig (which installs the new configuration) clears the caches. -/
theorem c10_provider_cache (f : LLMFactory) (name : List Char) (p : Provider)
    (cfg : ConfigMap) (h : lookupA name f.providerCache = some p) :
    CreateProvider f name cfg = (.ok p, f) ∧
    (∀ reg2, CreateProvider { f with registry := reg2 } name cfg =
      (.ok p, { f with registry := reg2 })) ∧
    (∀ c g r, LoadConfig f c = (r, g) → r = .ok () →
      g.providerCache = [] ∧ g.modelCache = [] ∧ g.config = c) := by
  refine ⟨?_, ?_, ?_⟩
  · unfold CreateProvider createProviderUnsafe
    rw [h]
  · intro reg2
    unfold CreateProvider createProviderUnsafe
    simp only [h]
  · intro c g r hload hok
    subst hok
    unfold LoadConfig at hload
    by_cases h1 : c.defaultProvider = []
    · rw [if_pos h1] at hload
      exact absurd (congrArg Prod.fst hload) (by simp)
    · rw [if_neg h1] at hload
      by_cases h2 : c.providers = []
      · rw [if_pos h2] at hload
        exact absurd (congrArg Prod.fst hload) (by simp)
      · rw [if_neg h2] at hload
        cases h3 : lookupA c.defaultProvider c.providers with
        | none =>
          rw [h3] at hload
          exact absurd (congrArg Prod.fst hload) (by simp)
        | some pc =>
          rw [h3] at hload
          have hg := congrArg Prod.snd hload
          simp only at hg
          rw [← hg]
          exact ⟨rfl, rfl, rfl⟩

/-- C10 witness: a concrete factory with a cached provider. -/
theorem c10_provider_cache_witness :
    lookupA ("n").data
        (LLMFactory.mk [] (FactoryConfig.mk [] [] [] []) [(("n").data, ⟨1⟩)] []).providerCache =
      some ⟨1⟩ ∧
    (CreateProvider (LLMFactory.mk [] (FactoryConfig.mk [] [] [] []) [(("n").data, ⟨1⟩)] [])
        ("n").data [] =
      (.ok ⟨1⟩, LLMFactory.mk [] (FactoryConfig.mk [] [] [] []) [(("n").data, ⟨1⟩)] []) ∧
      (∀ reg2,
        CreateProvider
            { LLMFactory.mk [] (FactoryConfig.mk [] [] [] []) [(("n").data, ⟨1⟩)] [] with
                registry := reg2 } ("n").data [] =
          (.ok ⟨1⟩,
            { LLMFactory.mk [] (FactoryConfig.mk [] [] [] []) [(("n").data, ⟨1⟩)] [] with
                registry := reg2 })) ∧
      (∀ c g r,
        LoadConfig (LLMFactory.mk [] (FactoryConfig.mk [] [] [] []) [(("n").data, ⟨1⟩)] []) c =
          (r, g) → r = .ok () →
        g.providerCache = [] ∧ g.modelCache = [] ∧ g.config = c)) :=
  ⟨rfl, c10_provider_cache _ ("n").data ⟨1⟩ [] rfl⟩

/-- C1 counterexample: in the ollama client, a network failure whose text is
exactly "invalid api key" is classified as a retryable operation failure
(the ollama classifier has no authentication bucket), and with the default
policy the retry loop runs all four attempts (last attempt index 3) instead
of stopping after the first. -/
theorem c1_counterexample :
    (ollamaClassifyError ("invalid api key").data 0 opChat).retryable = true ∧
    (ollamaChatWithRetry (fun _ => .failure ("invalid api key").data) false (fun _ => true)
        defaultRetryConfig).2 = 3 := by
  constructor
  · decide
  · rfl

/-- C1 amended: in the google provider, a network failure on the first
attempt whose text indicates authentication ("invalid api key", and matches
none of the earlier connection/timeout buckets) is classified non-retryable
and the retry loop terminates immediately after the first attempt with that
error, for every retry policy. -/
theorem c1_amended (cfg : RetryConfig) (net : Nat → NetOutcome) (hasTarget : Bool)
    (decodeOk : List Char → Bool) (msg : List Char)
    (hnet : net 0 = .failure msg)
    (hauth : containsSub msg ("invalid api key").data = true)
    (hc1 : containsSub msg ("connection refused").data = false)
    (hc2 : containsSub msg ("no such host").data = false)
    (hc3 : containsSub msg ("network is unreachable").data = false)
    (ht1 : containsSub msg ("timeout").data = false)
    (ht2 : containsSub msg ("context deadline exceeded").data = false)
    (ht3 : containsSub msg ("deadline exceeded").data = false) :
    (googleClassifyError msg 0 opChat).retryable = false ∧
    googleChatWithRetry net hasTarget decodeOk cfg =
      (.fail (googleClassifyError msg 0 opChat), 0) := by
  have hclass : (googleClassifyError msg 0 opChat).retryable = false := by
    unfold googleClassifyError
    rw [if_neg (by simp [hc1, hc2, hc3]), if_neg (by simp [ht1, ht2, ht3]),
      if_pos (by simp [hauth])]
    rfl
  refine ⟨hclass, ?_⟩
  unfold googleChatWithRetry
  rw [googleGo, hnet]
  simp [IsRetryable, hclass]

/-- C1 witness: the amended behaviour on a concrete auth failure. -/
theorem c1_amended_witness :
    (fun _ : Nat => NetOutcome.failure ("invalid api key").data) 0 =
      .failure ("invalid api key").data ∧
    containsSub ("invalid api key").data ("invalid api key").data = true ∧
    ((googleClassifyError ("invalid api key").data 0 opChat).retryable = false ∧
      googleChatWithRetry (fun _ => .failure ("invalid api key").data) false (fun _ => true)
          defaultRetryConfig =
        (.fail (googleClassifyError ("invalid api key").data 0 opChat), 0)) :=
  ⟨rfl, by decide,
    c1_amended defaultRetryConfig _ false _ _ rfl (by decide) (by decide) (by decide)
      (by decide) (by decide) (by decide) (by decide)⟩

/-- C2 counterexample: the ollama client's retry loop has no empty-response
check: when the network call succeeds with empty text and no target shape is
requested, it returns a success whose message is the empty string on the
first attempt. -/
theorem c2_counterexample :
    ollamaChatWithRetry (fun _ => .success []) false (fun _ => true) defaultRetryConfig =
      (.ok [] none, 0) := rfl

theorem googleGo_empty_aux (net : Nat → NetOutcome) (hasTarget : Bool)
    (decodeOk : List Char → Bool) (maxRetries : Nat) :
    ∀ (fuel attempt : Nat), attempt + fuel = maxRetries + 1 → attempt ≤ maxRetries →
    (∀ n, attempt ≤ n → n ≤ maxRetries → net n = .success []) →
    googleGo net hasTarget decodeOk maxRetries attempt fuel =
      (.fail (NewLLMError .invalidResponse ("empty response from Google API").data opChat
        true maxRetries none), maxRetries) := by
  intro fuel
  induction fuel with
  | zero => intro attempt h1 h2 _; omega
  | succ f ih =>
    intro attempt h1 h2 hnet
    rw [googleGo, hnet attempt (le_refl _) h2]
    simp only [reduceIte]
    by_cases hlt : attempt < maxRetries
    · rw [if_pos hlt]
      exact ih (attempt + 1) (by omega) (by omega) (fun n hn1 hn2 => hnet n (by omega) hn2)
    · rw [if_neg hlt]
      have : attempt = maxRetries := by omega
      rw [this]

/-- C2 amended: in the google provider, if every attempt's network call
succeeds with empty text, each attempt is treated as a retryable
invalid-response failure and after the whole budget is spent the loop
terminates with that invalid-response error — never a success with an empty
message.  The ollama client lacks this check (see the counterexample). -/
theorem c2_amended (cfg : RetryConfig) (net : Nat → NetOutcome) (hasTarget : Bool)
    (decodeOk : List Char → Bool)
    (h : ∀ n, n ≤ cfg.maxRetries → net n = .success []) :
    googleChatWithRetry net hasTarget decodeOk cfg =
      (.fail (NewLLMError .invalidResponse ("empty response from Google API").data opChat
        true cfg.maxRetries none), cfg.maxRetries) :=
  googleGo_empty_aux net hasTarget decodeOk cfg.maxRetries (cfg.maxRetries + 1) 0 (by omega)
    (by omega) (fun n _ hn2 => h n hn2)

/-- C2 witness: the amended behaviour under the default policy. -/
theorem c2_amended_witness :
    (∀ n, n ≤ defaultRetryConfig.maxRetries →
      (fun _ : Nat => NetOutcome.success []) n = .success []) ∧
    googleChatWithRetry (fun _ => .success []) false (fun _ => true) defaultRetryConfig =
      (.fail (NewLLMError .invalidResponse ("empty response from Google API").data opChat
        true defaultRetryConfig.maxRetries none), defaultRetryConfig.maxRetries) :=
  ⟨fun _ _ => rfl, c2_amended defaultRetryConfig _ false _ (fun _ _ => rfl)⟩

theorem trimSpace_within (s : List Char) : trimSpace s <:+: s := by
  unfold trimSpace
  have h1 : s.dropWhile isSpaceGo <:+ s := List.dropWhile_suffix _
  have h2 : ((s.dropWhile isSpaceGo).reverse.dropWhile isSpaceGo).reverse <+:
      s.dropWhile isSpaceGo := by
    rw [← List.reverse_suffix]
    simpa using List.dropWhile_suffix (l := (s.dropWhile isSpaceGo).reverse) isSpaceGo
  exact h2.isInfix.trans h1.isInfix

theorem ejbGo_sound (valid : List Char → Bool) (oc cc : Char) (orig : List Char) :
    ∀ (cs : List Char) (i : Nat) (start : Option Nat) (count : ℤ) (inS esc : Bool),
      ejbGo valid oc cc orig cs i start count inS esc = [] ∨
      (valid (ejbGo valid oc cc orig cs i start count inS esc) = true ∧
        ejbGo valid oc cc orig cs i start count inS esc <:+: orig) := by
  intro cs
  induction cs with
  | nil => intro i start count inS esc; exact Or.inl rfl
  | cons c cs ih =>
    intro i start count inS esc
    rw [ejbGo.eq_def]
    dsimp only
    repeat' split
    all_goals first
      | exact Or.inl rfl
      | exact ih _ _ _ _ _
      | (rename_i hvalid
         right
         exact ⟨hvalid,
           (List.take_prefix _ _).isInfix.trans (List.drop_suffix _ _).isInfix⟩)

theorem extractFromMarkdown_sound (response marker : List Char) :
    extractFromMarkdown response marker = [] ∨
    (isValidJSON (extractFromMarkdown response marker) = true ∧
      extractFromMarkdown response marker <:+: response) := by
  unfold extractFromMarkdown
  cases h1 : indexOfSub response marker with
  | none => exact Or.inl rfl
  | some st =>
    dsimp only
    cases h2 : indexOfSub (response.drop (st + marker.length)) fenceMarker with
    | none => exact Or.inl rfl
    | some e =>
      dsimp only
      by_cases h3 : isValidJSON (trimSpace ((response.drop (st + marker.length)).take e)) = true
      · rw [if_pos h3]
        right
        exact ⟨h3, (trimSpace_within _).trans
          ((List.take_prefix _ _).isInfix.trans (List.drop_suffix _ _).isInfix)⟩
      · rw [if_neg h3]
        exact Or.inl rfl

theorem removeNoisePre_within (l : List (List Char)) (s : List Char) :
    removeNoisePre l s <:+: s := by
  induction l with
  | nil => exact List.infix_rfl
  | cons p ps ih =>
    rw [removeNoisePre]
    split
    · exact (trimSpace_within _).trans (List.drop_suffix _ _).isInfix
    · exact ih

theorem removeNoiseSuf_within (l : List (List Char)) (s : List Char) :
    removeNoiseSuf l s <:+: s := by
  induction l with
  | nil => exact List.infix_rfl
  | cons p ps ih =>
    rw [removeNoiseSuf]
    split
    · exact (trimSpace_within _).trans (List.take_prefix _ _).isInfix
    · exact ih

theorem extractWithAggressiveCleanup_sound (response : List Char) :
    extractWithAggressiveCleanup response = [] ∨
    (isValidJSON (extractWithAggressiveCleanup response) = true ∧
      extractWithAggressiveCleanup response <:+: response) := by
  have hclean : removeNoiseSuf noiseSuffixes (removeNoisePre noisePrefixes response) <:+:
      response :=
    (removeNoiseSuf_within _ _).trans (removeNoisePre_within _ _)
  unfold extractWithAggressiveCleanup
  dsimp only
  by_cases hv : isValidJSON (removeNoiseSuf noiseSuffixes (removeNoisePre noisePrefixes
      response)) = true
  · rw [if_pos hv]
    exact Or.inr ⟨hv, hclean⟩
  · rw [if_neg hv]
    unfold extractJSONBoundaries
    rcases ejbGo_sound isValidJSON '{' '}'
        (removeNoiseSuf noiseSuffixes (removeNoisePre noisePrefixes response))
        (removeNoiseSuf noiseSuffixes (removeNoisePre noisePrefixes response))
        0 none 0 false false with h | ⟨h1, h2⟩
    · exact Or.inl h
    · exact Or.inr ⟨h1, h2.trans hclean⟩

theorem extractJSON_sound (s : List Char) :
    extractJSON s = [] ∨
    (isValidJSON (extractJSON s) = true ∧
      (extractJSON s <:+: s ∨ extractJSON s = repairCommonJSONIssues (trimSpace s))) := by
  unfold extractJSON
  dsimp only
  by_cases hA : isValidJSON (trimSpace s) = true
  · rw [if_pos hA]
    exact Or.inr ⟨hA, Or.inl (trimSpace_within s)⟩
  · rw [if_neg hA]
    by_cases hB : isValidJSON (repairCommonJSONIssues (trimSpace s)) = true
    · rw [if_pos hB]
      exact Or.inr ⟨hB, Or.inr rfl⟩
    · rw [if_neg hB]
      by_cases h3 : (if containsSub s fenceJsonMarker = true then
          extractFromMarkdown s fenceJsonMarker else []) ≠ []
      · rw [if_pos h3]
        by_cases hC : containsSub s fenceJsonMarker = true
        · rw [if_pos hC] at h3 ⊢
          rcases extractFromMarkdown_sound s fenceJsonMarker with h0 | ⟨hv, hi⟩
          · exact absurd h0 h3
          · exact Or.inr ⟨hv, Or.inl hi⟩
        · rw [if_neg hC] at h3
          exact absurd rfl h3
      · rw [if_neg h3]
        by_cases h4 : (if containsSub s fenceMarker = true then
            extractFromMarkdown s fenceMarker else []) ≠ []
        · rw [if_pos h4]
          by_cases hD : containsSub s fenceMarker = true
          · rw [if_pos hD] at h4 ⊢
            rcases extractFromMarkdown_sound s fenceMarker with h0 | ⟨hv, hi⟩
            · exact absurd h0 h4
            · exact Or.inr ⟨hv, Or.inl hi⟩
          · rw [if_neg hD] at h4
            exact absurd rfl h4
        · rw [if_neg h4]
          by_cases h5 : extractWithBraceCounting s ≠ []
          · rw [if_pos h5]
            unfold extractWithBraceCounting extractJSONBoundaries at h5 ⊢
            rcases ejbGo_sound isValidJSON '{' '}' s s 0 none 0 false false with h0 | ⟨hv, hi⟩
            · exact absurd h0 h5
            · exact Or.inr ⟨hv, Or.inl hi⟩
          · rw [if_neg h5]
            by_cases h6 : extractWithAggressiveCleanup s ≠ []
            · rw [if_pos h6]
              rcases extractWithAggressiveCleanup_sound s with h0 | ⟨hv, hi⟩
              · exact absurd h0 h6
              · exact Or.inr ⟨hv, Or.inl hi⟩
            · rw [if_neg h6]
              exact Or.inl rfl

/-- C5: every non-empty candidate returned by the extraction pipeline
independently validates as JSON — no strategy's result is returned without
passing validation. -/
theorem c5_candidates_validated (s : List Char) (h : extractJSON s ≠ []) :
    isValidJSON (extractJSON s) = true := by
  rcases extractJSON_sound s with h0 | ⟨h1, _⟩
  · exact absurd h0 h
  · exact h1

/-- C5 witness: the pipeline on a small valid array. -/
theorem c5_candidates_validated_witness :
    extractJSON ['[', ']'] ≠ [] ∧ isValidJSON (extractJSON ['[', ']']) = true :=
  ⟨by decide, c5_candidates_validated ['[', ']'] (by decide)⟩

/-- C7 counterexample: on an object whose string value contains a literal
newline, the pipeline's repair strategy returns the repaired text, which is
longer than the raw response and hence not a substring of it. -/
theorem c7_counterexample :
    extractJSON ['{', '"', 'a', '"', ':', '"', 'x', '\n', 'y', '"', '}'] ≠ [] ∧
    ¬(extractJSON ['{', '"', 'a', '"', ':', '"', 'x', '\n', 'y', '"', '}'] <:+:
      ['{', '"', 'a', '"', ':', '"', 'x', '\n', 'y', '"', '}']) := by
  constructor
  · decide
  · intro h
    have hlen := h.length_le
    have h12 : (extractJSON ['{', '"', 'a', '"', ':', '"', 'x', '\n', 'y', '"', '}']).length
        = 12 := by decide
    rw [h12] at hlen
    simp at hlen

/-- C7 amended: every non-empty candidate returned by the pipeline is either
a contiguous substring of the raw response or (for the repair strategy) the
repair pass applied to the trimmed response. -/
theorem c7_amended (s : List Char) (h : extractJSON s ≠ []) :
    extractJSON s <:+: s ∨ extractJSON s = repairCommonJSONIssues (trimSpace s) := by
  rcases extractJSON_sound s with h0 | ⟨_, h2⟩
  · exact absurd h0 h
  · exact h2

/-- C7 witness: the amended property on a small object. -/
theorem c7_amended_witness :
    extractJSON ['{', '}'] ≠ [] ∧
    (extractJSON ['{', '}'] <:+: ['{', '}'] ∨
      extractJSON ['{', '}'] = repairCommonJSONIssues (trimSpace ['{', '}'])) :=
  ⟨by decide, c7_amended ['{', '}'] (by decide)⟩

/-- C6 counterexample: the balanced-span step of the pipeline only ever
scans for braces (extractJSONBoundaries is instantiated with `{` and `}`),
so a valid top-level JSON array embedded in surrounding prose is not found:
on "The answer is [1,2,3] ok" the extractor returns no candidate even
though the embedded array is valid JSON, and the whole pipeline finds
nothing either. -/
theorem c6_counterexample :
    isValidJSON ['[', '1', ',', '2', ',', '3', ']'] = true ∧
    containsSub
        (("The answer is ").data ++ ['[', '1', ',', '2', ',', '3', ']'] ++ (" ok").data)
        ['[', '1', ',', '2', ',', '3', ']'] = true ∧
    extractWithBraceCounting
        (("The answer is ").data ++ ['[', '1', ',', '2', ',', '3', ']'] ++ (" ok").data) = [] ∧
    extractJSON
        (("The answer is ").data ++ ['[', '1', ',', '2', ',', '3', ']'] ++ (" ok").data) = [] := by
  refine ⟨by decide, by decide, by decide, by decide⟩

theorem ejbGo_clean_skip (valid : List Char → Bool) (orig : List Char) :
    ∀ (p rest : List Char) (i : Nat),
      (∀ c ∈ p, c ≠ '{' ∧ c ≠ '}' ∧ c ≠ '"' ∧ c ≠ '\\') →
      ejbGo valid '{' '}' orig (p ++ rest) i none 0 false false =
        ejbGo valid '{' '}' orig rest (i + p.length) none 0 false false := by
  intro p
  induction p with
  | nil => intro rest i _; simp
  | cons c p ih =>
    intro rest i hp
    obtain ⟨h1, h2, h3, h4⟩ := hp c (List.mem_cons_self c p)
    rw [List.cons_append, ejbGo.eq_def]
    dsimp only
    rw [if_neg (show ¬(c = '\\' ∧ ¬false = true) by simp [h4])]
    have hIN : (if c = '"' ∧ ¬false = true then !false else false) = false := by simp [h3]
    rw [hIN]
    rw [if_pos (show ¬false = true by simp)]
    rw [if_neg h1, if_neg h2]
    rw [ih rest (i + 1) (fun d hd => hp d (List.mem_cons_of_mem c hd))]
    have harith : i + 1 + p.length = i + (c :: p).length := by
      simp [List.length_cons]
      omega
    rw [harith]

theorem braceCounts_cons (st : Bool × Bool × Int) (c : Char) (cs : List Char) :
    braceCounts st (c :: cs) =
      (braceStep c st).2.2 :: braceCounts (braceStep c st) cs := rfl

theorem counts_tail_facts (z : ℤ) (st : Bool × Bool × Int) (d : Char) (ds : List Char)
    (hpos : ∀ x ∈ (z :: braceCounts st (d :: ds)).dropLast, 0 < x)
    (hlast : (z :: braceCounts st (d :: ds)).getLast? = some 0) :
    0 < z ∧ (∀ x ∈ (braceCounts st (d :: ds)).dropLast, 0 < x) ∧
      (braceCounts st (d :: ds)).getLast? = some 0 := by
  rw [braceCounts_cons] at hpos hlast ⊢
  rw [List.dropLast_cons₂] at hpos
  rw [List.getLast?_cons_cons] at hlast
  exact ⟨hpos z (List.mem_cons_self _ _),
    fun x hx => hpos x (List.mem_cons_of_mem _ hx), hlast⟩

theorem ejbGo_span_aux (valid : List Char → Bool) (orig : List Char) :
    ∀ (j2 q : List Char) (i s0 : Nat) (inS esc : Bool) (k : ℤ),
      0 < k →
      (∀ d ∈ (braceCounts (inS, esc, k) j2).dropLast, 0 < d) →
      (braceCounts (inS, esc, k) j2).getLast? = some 0 →
      valid ((orig.drop s0).take (i + j2.length - s0)) = true →
      ejbGo valid '{' '}' orig (j2 ++ q) i (some s0) k inS esc =
        (orig.drop s0).take (i + j2.length - s0) := by
  intro j2
  induction j2 with
  | nil =>
    intro q i s0 inS esc k _ _ hlast _
    simp [braceCounts] at hlast
  | cons c cs ih =>
    intro q i s0 inS esc k hk hpos hlast hvalid
    cases hcs : cs with
    | nil =>
      subst hcs
      have hk0 : (braceStep c (inS, esc, k)).2.2 = 0 := by
        rw [braceCounts_cons] at hlast
        simpa [braceCounts] using hlast
      by_cases hbs : c = '\\' ∧ ¬esc = true
      · exfalso
        have hst : braceStep c (inS, esc, k) = (inS, true, k) := by
          rw [braceStep, if_pos hbs]
        rw [hst] at hk0
        dsimp only at hk0
        omega
      · have hst0 : braceStep c (inS, esc, k) =
            ((if c = '"' ∧ ¬esc = true then !inS else inS), false,
              if ¬(if c = '"' ∧ ¬esc = true then !inS else inS) = true then
                (if c = '{' then k + 1 else if c = '}' then k - 1 else k) else k) := by
          rw [braceStep, if_neg hbs]
        by_cases hin : ¬(if c = '"' ∧ ¬esc = true then !inS else inS) = true
        · by_cases hop : c = '{'
          · exfalso
            have : (braceStep c (inS, esc, k)).2.2 = k + 1 := by
              rw [hst0]
              rw [if_pos hin, if_pos hop]
            rw [this] at hk0
            omega
          · by_cases hcl : c = '}'
            · have hkm : k - 1 = 0 := by
                have : (braceStep c (inS, esc, k)).2.2 = k - 1 := by
                  rw [hst0]
                  rw [if_pos hin, if_neg hop, if_pos hcl]
                rw [this] at hk0
                omega
              have harith : i + (c :: ([] : List Char)).length - s0 = i + 1 - s0 := by
                simp
              rw [harith] at hvalid ⊢
              show ejbGo valid '{' '}' orig (c :: q) i (some s0) k inS esc =
                (orig.drop s0).take (i + 1 - s0)
              rw [ejbGo.eq_def]
              dsimp only
              rw [if_neg hbs]
              have hIN : (if c = '"' ∧ ¬esc = true then !inS else inS) = false := by
                simpa using hin
              rw [hIN]
              rw [if_pos (show ¬false = true by simp)]
              rw [if_neg hop, if_pos hcl, if_pos hkm, if_pos hvalid]
            · exfalso
              have : (braceStep c (inS, esc, k)).2.2 = k := by
                rw [hst0]
                rw [if_pos hin, if_neg hop, if_neg hcl]
              rw [this] at hk0
              omega
        · exfalso
          have : (braceStep c (inS, esc, k)).2.2 = k := by
            rw [hst0]
            rw [if_neg hin]
          rw [this] at hk0
          omega
    | cons d ds =>
      subst hcs
      rw [braceCounts_cons] at hpos hlast
      obtain ⟨hkpos, hpos2, hlast2⟩ :=
        counts_tail_facts (braceStep c (inS, esc, k)).2.2 (braceStep c (inS, esc, k)) d ds
          hpos hlast
      have harith : (i + 1) + (d :: ds).length - s0 = i + (c :: d :: ds).length - s0 := by
        simp only [List.length_cons]
        omega
      have hvalid2 : valid ((orig.drop s0).take ((i + 1) + (d :: ds).length - s0)) = true := by
        rw [harith]
        exact hvalid
      rw [List.cons_append, ejbGo.eq_def]
      dsimp only
      by_cases hbs : c = '\\' ∧ ¬esc = true
      · rw [if_pos hbs]
        have hst : braceStep c (inS, esc, k) = (inS, true, k) := by
          rw [braceStep, if_pos hbs]
        rw [hst] at hkpos hpos2 hlast2
        dsimp only at hkpos
        rw [ih q (i + 1) s0 inS true k hkpos hpos2 hlast2 hvalid2, harith]
      · rw [if_neg hbs]
        have hst0 : braceStep c (inS, esc, k) =
            ((if c = '"' ∧ ¬esc = true then !inS else inS), false,
              if ¬(if c = '"' ∧ ¬esc = true then !inS else inS) = true then
                (if c = '{' then k + 1 else if c = '}' then k - 1 else k) else k) := by
          rw [braceStep, if_neg hbs]
        by_cases hin : ¬(if c = '"' ∧ ¬esc = true then !inS else inS) = true
        · have hIN : (if c = '"' ∧ ¬esc = true then !inS else inS) = false := by
            simpa using hin
          rw [hIN]
          rw [if_pos (show ¬false = true by simp)]
          by_cases hop : c = '{'
          · rw [if_pos hop]
            have hst : braceStep c (inS, esc, k) = (false, false, k + 1) := by
              rw [hst0, hIN]
              rw [if_pos (show ¬false = true by simp), if_pos hop]
            rw [hst] at hkpos hpos2 hlast2
            dsimp only at hkpos
            rw [ih q (i + 1) s0 false false (k + 1) hkpos hpos2 hlast2 hvalid2, harith]
          · rw [if_neg hop]
            by_cases hcl : c = '}'
            · rw [if_pos hcl]
              have hst : braceStep c (inS, esc, k) = (false, false, k - 1) := by
                rw [hst0, hIN]
                rw [if_pos (show ¬false = true by simp), if_neg hop, if_pos hcl]
              rw [hst] at hkpos hpos2 hlast2
              dsimp only at hkpos
              rw [if_neg (show ¬(k - 1 = 0) by omega)]
              rw [ih q (i + 1) s0 false false (k - 1) hkpos hpos2 hlast2 hvalid2, harith]
            · rw [if_neg hcl]
              have hst : braceStep c (inS, esc, k) = (false, false, k) := by
                rw [hst0, hIN]
                rw [if_pos (show ¬false = true by simp), if_neg hop, if_neg hcl]
              rw [hst] at hkpos hpos2 hlast2
              dsimp only at hkpos
              rw [ih q (i + 1) s0 false false k hkpos hpos2 hlast2 hvalid2, harith]
        · have hIN : (if c = '"' ∧ ¬esc = true then !inS else inS) = true := by
            simpa using hin
          rw [hIN]
          rw [if_neg (show ¬(¬true = true) by simp)]
          have hst : braceStep c (inS, esc, k) = (true, false, k) := by
            rw [hst0, hIN]
            rw [if_neg (show ¬(¬true = true) by simp)]
          rw [hst] at hkpos hpos2 hlast2
          dsimp only at hkpos
          rw [ih q (i + 1) s0 true false k hkpos hpos2 hlast2 hvalid2, harith]

/-- C6 amended: the balanced-span extractor scans for braces only.  For
every input of the form prose ++ span ++ tail where the prose contains no
brace, quote or backslash, the span is a single balanced brace span for the
extractor's scanner (it opens with a brace, its depth stays positive inside
and returns to zero exactly at its final character), and the span validates
as JSON, the extractor returns exactly that span; bracket-delimited arrays
are not handled (see the counterexample). -/
theorem c6_amended (p j q : List Char)
    (hp : ∀ c ∈ p, c ≠ '{' ∧ c ≠ '}' ∧ c ≠ '"' ∧ c ≠ '\\')
    (hj : BalancedSpan j)
    (hv : isValidJSON j = true) :
    extractWithBraceCounting (p ++ j ++ q) = j := by
  obtain ⟨hhead, hlast, hpos⟩ := hj
  cases j with
  | nil => simp at hhead
  | cons c0 j' =>
    have hc0 : c0 = '{' := by simpa using hhead
    subst hc0
    unfold extractWithBraceCounting extractJSONBoundaries
    rw [List.append_assoc]
    rw [ejbGo_clean_skip isValidJSON _ p (('{' :: j') ++ q) 0 hp]
    simp only [Nat.zero_add]
    rw [List.cons_append, ejbGo.eq_def]
    dsimp only
    rw [if_neg (by decide : ¬(('{' : Char) = '\\' ∧ ¬false = true))]
    rw [(by decide : (if ('{' : Char) = '"' ∧ ¬false = true then !false else false) = false)]
    rw [if_pos (by decide : ¬false = true)]
    rw [if_pos (rfl : ('{' : Char) = '{')]
    simp only [zero_add]
    cases j' with
    | nil =>
      exfalso
      rw [braceCounts_cons] at hlast
      rw [(by decide : braceStep '{' (false, false, 0) = (false, false, 1))] at hlast
      simp [braceCounts] at hlast
    | cons d ds =>
      rw [braceCounts_cons] at hpos hlast
      obtain ⟨hkpos, hpos2, hlast2⟩ :=
        counts_tail_facts (braceStep '{' (false, false, 0)).2.2
          (braceStep '{' (false, false, 0)) d ds hpos hlast
      rw [(by decide : braceStep '{' (false, false, 0) = (false, false, 1))]
        at hkpos hpos2 hlast2
      dsimp only at hkpos
      have hslice : ((p ++ (('{' :: d :: ds) ++ q)).drop p.length).take
          ((p.length + 1) + (d :: ds).length - p.length) = '{' :: d :: ds := by
        rw [List.drop_left p (('{' :: d :: ds) ++ q)]
        have harith : (p.length + 1) + (d :: ds).length - p.length =
            ('{' :: d :: ds).length := by
          simp [List.length_cons]
          omega
        rw [harith]
        exact List.take_left ('{' :: d :: ds) q
      have main := ejbGo_span_aux isValidJSON (p ++ (('{' :: d :: ds) ++ q)) (d :: ds) q
        (p.length + 1) p.length false false 1 hkpos hpos2 hlast2 (by rw [hslice]; exact hv)
      exact main.trans hslice

/-- C6 witness: the amended statement on prose followed by a nested object. -/
theorem c6_amended_witness :
    (∀ c ∈ ("Result: ").data, c ≠ '{' ∧ c ≠ '}' ∧ c ≠ '"' ∧ c ≠ '\\') ∧
    BalancedSpan ['{', '"', 'x', '"', ':', ' ', '[', '1', ',', '2', ',', '{', '"', 'y',
      '"', ':', '3', '}', ']', '}'] ∧
    isValidJSON ['{', '"', 'x', '"', ':', ' ', '[', '1', ',', '2', ',', '{', '"', 'y',
      '"', ':', '3', '}', ']', '}'] = true ∧
    extractWithBraceCounting (("Result: ").data ++ ['{', '"', 'x', '"', ':', ' ', '[',
      '1', ',', '2', ',', '{', '"', 'y', '"', ':', '3', '}', ']', '}'] ++ (" ok").data) =
      ['{', '"', 'x', '"', ':', ' ', '[', '1', ',', '2', ',', '{', '"', 'y', '"', ':',
        '3', '}', ']', '}'] :=
  ⟨by decide, by decide, by decide,
    c6_amended (("Result: ").data) _ ((" ok").data) (by decide) (by decide) (by decide)⟩

end SimpleAI
